import Mathlib

/-!
Verification development for the `django_extensions` mixin collection.

The Python sources under `django_extensions/` are shallowly embedded below:
pure helpers become Lean functions, request/instance state becomes explicit
arguments, and fallible code returns `Except PyExc`.  Host-framework (Django)
methods that the repository re-binds or calls are modelled from the framework
semantics the code relies on.
-/

/-- Python exceptions that the embedded code can raise or catch. -/
inductive PyExc where
  | valueError
  | typeError
  | validationError
  | doesNotExist
  | indexError
  | nameError
  | http404
  | attributeError
  | other
deriving DecidableEq, Repr

/-! ### Python `sorted`

Python's `sorted` is a stable sort.  We model it as a stable insertion sort:
each element is inserted after all already-placed elements that compare
less-or-equal, which preserves the relative order of equal keys exactly as
CPython's stable mergesort does. -/

/-- Insert `a` after every leading element `b` with `le b a`. -/
def insertS (le : α → α → Bool) (a : α) : List α → List α
  | [] => [a]
  | b :: l => if le b a then b :: insertS le a l else a :: b :: l

/-- Stable sort modelling Python's `sorted` with comparator `le`. -/
def stableSort (le : α → α → Bool) (l : List α) : List α :=
  l.foldl (fun acc a => insertS le a acc) []

theorem mem_insertS (le : α → α → Bool) (a x : α) (l : List α) :
    x ∈ insertS le a l ↔ x = a ∨ x ∈ l := by
  induction l with
  | nil => simp [insertS]
  | cons b l ih =>
    by_cases h : le b a = true
    · simp only [insertS, if_pos h, List.mem_cons, ih]
      tauto
    · simp only [insertS, if_neg h, List.mem_cons]

theorem mem_stableSort_aux (le : α → α → Bool) (x : α) :
    ∀ (l acc : List α), x ∈ l.foldl (fun acc a => insertS le a acc) acc ↔ x ∈ acc ∨ x ∈ l := by
  intro l
  induction l with
  | nil => simp
  | cons b l ih =>
    intro acc
    simp only [List.foldl_cons, ih, mem_insertS, List.mem_cons]
    tauto

theorem mem_stableSort (le : α → α → Bool) (x : α) (l : List α) :
    x ∈ stableSort le l ↔ x ∈ l := by
  simpa [stableSort] using mem_stableSort_aux le x l []

theorem pairwise_insertS (le : α → α → Bool)
    (htot : ∀ x y, le x y = true ∨ le y x = true)
    (htrans : ∀ x y z, le x y = true → le y z = true → le x z = true)
    (a : α) (l : List α) (h : l.Pairwise (fun x y => le x y = true)) :
    (insertS le a l).Pairwise (fun x y => le x y = true) := by
  induction l with
  | nil => simp [insertS]
  | cons b l ih =>
    rcases List.pairwise_cons.mp h with ⟨hb, hl⟩
    by_cases hba : le b a = true
    · rw [insertS, if_pos hba]
      refine List.pairwise_cons.mpr ⟨?_, ih hl⟩
      intro x hx
      rcases (mem_insertS le a x l).mp hx with rfl | hx
      · exact hba
      · exact hb x hx
    · rw [insertS, if_neg hba]
      have hab : le a b = true := (htot a b).resolve_right (by simpa using hba)
      refine List.pairwise_cons.mpr ⟨?_, h⟩
      intro x hx
      rcases List.mem_cons.mp hx with rfl | hx
      · exact hab
      · exact htrans a b x hab (hb x hx)

theorem pairwise_stableSort (le : α → α → Bool)
    (htot : ∀ x y, le x y = true ∨ le y x = true)
    (htrans : ∀ x y z, le x y = true → le y z = true → le x z = true)
    (l : List α) :
    (stableSort le l).Pairwise (fun x y => le x y = true) := by
  suffices h : ∀ (l acc : List α), acc.Pairwise (fun x y => le x y = true) →
      (l.foldl (fun acc a => insertS le a acc) acc).Pairwise (fun x y => le x y = true) by
    exact h l [] (by simp)
  intro l
  induction l with
  | nil => intro acc hacc; simpa using hacc
  | cons b l ih =>
    intro acc hacc
    exact ih _ (pairwise_insertS le htot htrans b acc hacc)

/-- The head of a `stableSort`ed list is `le`-below every list element. -/
theorem stableSort_head_min (le : α → α → Bool)
    (htot : ∀ x y, le x y = true ∨ le y x = true)
    (htrans : ∀ x y z, le x y = true → le y z = true → le x z = true)
    (l : List α) (c : α) (rest : List α) (hs : stableSort le l = c :: rest) :
    c ∈ l ∧ ∀ x ∈ l, le c x = true := by
  have hmemc : c ∈ l := by
    have : c ∈ stableSort le l := by rw [hs]; exact List.mem_cons_self c rest
    exact (mem_stableSort le c l).mp this
  refine ⟨hmemc, ?_⟩
  intro x hx
  have hx' : x ∈ stableSort le l := (mem_stableSort le x l).mpr hx
  rw [hs] at hx'
  rcases List.mem_cons.mp hx' with rfl | hx'
  · rcases htot x x with h | h <;> exact h
  · have hp := pairwise_stableSort le htot htrans l
    rw [hs] at hp
    exact (List.pairwise_cons.mp hp).1 x hx'

/-! ### CPython `int(str)`

`AdjustablePaginationMixin.get_paginate_by` calls the builtin `int` on the raw
GET value.  We model `int` applied to a string: surrounding whitespace is
stripped, an optional sign is allowed, and the remainder must be a nonempty
run of ASCII digits (CPython's underscore grouping and non-ASCII digits are
elided; they do not affect any claim).  `none` models `ValueError`. -/

def isAsciiDigit (c : Char) : Bool := '0' ≤ c && c ≤ '9'

def isPySpace (c : Char) : Bool :=
  c = ' ' || c = '\t' || c = '\n' || c = '\r' || c = '\x0b' || c = '\x0c'

/-- Strip leading and trailing whitespace, as `int` does before parsing. -/
def pyStrip (cs : List Char) : List Char :=
  ((cs.dropWhile isPySpace).reverse.dropWhile isPySpace).reverse

def digitsToNat (ds : List Char) : Nat :=
  ds.foldl (fun n c => 10 * n + (c.toNat - 48)) 0

def pyStrToInt (s : String) : Option Int :=
  let cs := pyStrip s.data
  match cs with
  | [] => none
  | c :: rest =>
    let signed : Bool × List Char :=
      if c = '-' then (true, rest) else if c = '+' then (false, rest) else (false, cs)
    if signed.2 ≠ [] && signed.2.all isAsciiDigit then
      let n : Int := digitsToNat signed.2
      some (if signed.1 then -n else n)
    else none

/-! ### `AdjustablePaginationMixin.get_paginate_by`

From `django_extensions/views/mixins.py`.  The method reads the raw GET value
of `pagination_param` (Django's `QueryDict.get` yields the last submitted
string, or the integer default `0` when the key is absent), converts it with
`int`, pairs each pagination choice with its absolute distance to that number,
and returns the second component of the head of the `sorted` pair list.

The instance state the method touches is passed explicitly: the configured
`pagination_choices` list and the GET value (`none` = parameter absent).  The
source's `except TypeError` handler is unreachable in this embedding because
the GET value is either a string or the integer default, and `int` raises
`ValueError`, not `TypeError`, on a malformed string; `ValueError` therefore
escapes, and an empty choice list would make the `[0]` indexing raise
`IndexError`. -/

def get_paginate_by (pagination_choices : List Int) (getParam : Option String) :
    Except PyExc Int :=
  let param? : Except PyExc Int :=
    match getParam with
    | none => Except.ok 0
    | some s =>
      match pyStrToInt s with
      | some n => Except.ok n
      | none => Except.error PyExc.valueError
  match param? with
  | Except.error e => Except.error e
  | Except.ok param =>
    let choices := pagination_choices.map (fun i => ((i - param).natAbs, i))
    match stableSort (fun a b => decide (a.1 ≤ b.1)) choices with
    | [] => Except.error PyExc.indexError
    | c :: _ => Except.ok c.2

/-- Class default of `AdjustablePaginationMixin.pagination_choices`. -/
def default_pagination_choices : List Int := [25, 50, 100, 200]

theorem natAbsLe_total (x y : Nat × Int) :
    decide (x.1 ≤ y.1) = true ∨ decide (y.1 ≤ x.1) = true := by
  by_cases h : x.1 ≤ y.1
  · exact Or.inl (by simpa using h)
  · exact Or.inr (by simp; omega)

theorem natAbsLe_trans (x y z : Nat × Int) (hxy : decide (x.1 ≤ y.1) = true)
    (hyz : decide (y.1 ≤ z.1) = true) : decide (x.1 ≤ z.1) = true := by
  simp only [decide_eq_true_eq] at *
  omega

/-- Helper: when the GET value parses to `n` (or is absent, giving `0`),
`get_paginate_by` succeeds with a choice at minimal absolute distance. -/
theorem get_paginate_by_min_aux (pagination_choices : List Int) (getParam : Option String)
    (n : Int) (hne : pagination_choices ≠ [])
    (hparse : (getParam = none ∧ n = 0) ∨ ∃ s, getParam = some s ∧ pyStrToInt s = some n) :
    ∃ c, get_paginate_by pagination_choices getParam = Except.ok c ∧
      c ∈ pagination_choices ∧
      ∀ x ∈ pagination_choices, (c - n).natAbs ≤ (x - n).natAbs := by
  have hred : get_paginate_by pagination_choices getParam =
      (match stableSort (fun a b => decide (a.1 ≤ b.1))
          (pagination_choices.map (fun i => ((i - n).natAbs, i))) with
        | [] => Except.error PyExc.indexError
        | c :: _ => Except.ok c.2) := by
    rcases hparse with ⟨h1, h2⟩ | ⟨s, hs, hp⟩
    · subst h1; subst h2; rfl
    · subst hs; simp only [get_paginate_by, hp]
  cases hsort : stableSort (fun a b : Nat × Int => decide (a.1 ≤ b.1))
      (pagination_choices.map (fun i => ((i - n).natAbs, i))) with
  | nil =>
    exfalso
    cases pagination_choices with
    | nil => exact hne rfl
    | cons i rest =>
      have hmem : ((i - n).natAbs, i) ∈ (i :: rest).map (fun i => ((i - n).natAbs, i)) := by
        simp
      have := (mem_stableSort (fun a b : Nat × Int => decide (a.1 ≤ b.1)) _ _).mpr hmem
      rw [hsort] at this
      exact absurd this (List.not_mem_nil _)
  | cons c rest =>
    have hmin := stableSort_head_min (fun a b : Nat × Int => decide (a.1 ≤ b.1))
      natAbsLe_total natAbsLe_trans _ c rest hsort
    rcases List.mem_map.mp hmin.1 with ⟨i, hi, hci⟩
    refine ⟨c.2, ?_, ?_, ?_⟩
    · rw [hred, hsort]
    · rw [← hci]; exact hi
    · intro x hx
      have hxm : ((x - n).natAbs, x) ∈ pagination_choices.map (fun i => ((i - n).natAbs, i)) :=
        List.mem_map.mpr ⟨x, hx, rfl⟩
      have := hmin.2 _ hxm
      have hc1 : c.1 = (c.2 - n).natAbs := by rw [← hci]
      simp only [decide_eq_true_eq] at this
      rw [hc1] at this
      exact this

/-- Claim C1: for every request whose `paginate_by` GET value parses as an
integer (`0` when absent), `get_paginate_by` returns a member of
`pagination_choices` whose absolute difference from the parsed integer is
minimal among all choices. -/
theorem get_paginate_by_nearest (pagination_choices : List Int) (getParam : Option String)
    (n : Int) (hne : pagination_choices ≠ [])
    (hparse : (getParam = none ∧ n = 0) ∨ ∃ s, getParam = some s ∧ pyStrToInt s = some n) :
    ∃ c, get_paginate_by pagination_choices getParam = Except.ok c ∧
      c ∈ pagination_choices ∧
      ∀ x ∈ pagination_choices, (c - n).natAbs ≤ (x - n).natAbs :=
  get_paginate_by_min_aux pagination_choices getParam n hne hparse

/-- Witness for C1: the default choices with `paginate_by=30` select `25`. -/
theorem get_paginate_by_nearest_witness :
    ∃ c, get_paginate_by default_pagination_choices (some "30") = Except.ok c ∧
      c ∈ default_pagination_choices ∧
      ∀ x ∈ default_pagination_choices, (c - 30).natAbs ≤ (x - 30).natAbs :=
  get_paginate_by_nearest default_pagination_choices (some "30") 30
    (by decide) (Or.inr ⟨"30", rfl, by decide⟩)

/-- Claim C9: `get_paginate_by` succeeds with a member of `pagination_choices`
exactly when the `paginate_by` GET value is absent or parses as an integer; a
present non-numeric value makes the `int` conversion raise `ValueError`, which
escapes because the handler only catches `TypeError`. -/
theorem get_paginate_by_total_iff (pagination_choices : List Int)
    (hne : pagination_choices ≠ []) :
    (∀ s, pyStrToInt s = none →
        get_paginate_by pagination_choices (some s) = Except.error PyExc.valueError) ∧
    (∀ getParam : Option String,
        (∃ c, get_paginate_by pagination_choices getParam = Except.ok c ∧
          c ∈ pagination_choices) ↔
        (getParam = none ∨ ∃ s n, getParam = some s ∧ pyStrToInt s = some n)) := by
  have herr : ∀ s, pyStrToInt s = none →
      get_paginate_by pagination_choices (some s) = Except.error PyExc.valueError := by
    intro s hs
    simp only [get_paginate_by, hs]
  refine ⟨herr, ?_⟩
  intro getParam
  constructor
  · rintro ⟨c, hc, -⟩
    cases getParam with
    | none => exact Or.inl rfl
    | some s =>
      cases hp : pyStrToInt s with
      | none => rw [herr s hp] at hc; exact absurd hc (by simp)
      | some n => exact Or.inr ⟨s, n, rfl, hp⟩
  · rintro (rfl | ⟨s, n, rfl, hp⟩)
    · rcases get_paginate_by_min_aux pagination_choices none 0 hne (Or.inl ⟨rfl, rfl⟩) with
        ⟨c, hc, hm, -⟩
      exact ⟨c, hc, hm⟩
    · rcases get_paginate_by_min_aux pagination_choices (some s) n hne
        (Or.inr ⟨s, rfl, hp⟩) with ⟨c, hc, hm, -⟩
      exact ⟨c, hc, hm⟩

/-- Witness for C9: the non-numeric value `"abc"` raises `ValueError` on the
default choices. -/
theorem get_paginate_by_total_iff_witness :
    get_paginate_by default_pagination_choices (some "abc") = Except.error PyExc.valueError :=
  (get_paginate_by_total_iff default_pagination_choices (by decide)).1 "abc" (by decide)

/-! ### `ModelUserFieldPermissionMixin` (`django_extensions/auth/mixins.py`)

A model instance is modelled as a total attribute map (the compared attribute
always exists on the object), and a user as a `Nat` identifier compared with
Python `==`.  The view state `test_func` touches is captured in `PermView`:
`object_attr` is `some o` exactly when `getattr(self, 'object', None)` is
truthy, `has_get_object` tells whether the instance has a `get_object`
method, and `get_object_result` / `queryset_first` are the values those
calls would produce.

The body is embedded statement-by-statement with an explicit local
environment for the variable `object`: the final branch evaluates
`self.get_queryset().first()` without assigning it, so `object` stays
unbound and the closing `getattr(object, model_attr)` read raises
`UnboundLocalError`, a subclass of `NameError`. -/

structure PyObj where
  attrs : String → Nat

def ModelUserFieldPermissionMixin.model_permission_user_field : String := "user"

structure PermView where
  model_permission_user_field : String := ModelUserFieldPermissionMixin.model_permission_user_field
  request_user : Nat
  object_attr : Option PyObj
  has_get_object : Bool
  get_object_result : PyObj
  queryset_first : Option PyObj

def get_model_permission_user_field (v : PermView) : String :=
  v.model_permission_user_field

def test_func (v : PermView) : Except PyExc Bool :=
  let model_attr := get_model_permission_user_field v
  let current_user := v.request_user
  -- local environment for the Python variable `object`; `none` = unbound
  let objectLocal : Option PyObj :=
    if v.object_attr.isSome then v.object_attr
    else if v.has_get_object then some v.get_object_result
    else
      -- the else-branch evaluates `self.get_queryset().first()` and
      -- discards it, leaving `object` unbound
      let _ := v.queryset_first
      none
  match objectLocal with
  | some o => Except.ok (decide (current_user = o.attrs model_attr))
  | none => Except.error PyExc.nameError

/-- Claim C3: with a non-falsy `object` attribute set, `test_func` returns
`True` iff `request.user` equals the object's attribute named by
`get_model_permission_user_field()`; the class default of that name is
`'user'`. -/
theorem test_func_attribute_comparison (v : PermView) (o : PyObj)
    (hobj : v.object_attr = some o) :
    (test_func v = Except.ok true ↔
      v.request_user = o.attrs (get_model_permission_user_field v)) ∧
    ModelUserFieldPermissionMixin.model_permission_user_field = "user" := by
  refine ⟨?_, rfl⟩
  simp only [test_func, hobj, Option.isSome_some, if_pos]
  constructor
  · intro h
    have := Except.ok.inj h
    simpa using this
  · intro h
    simp [h]

/-- Witness for C3: a view whose user `5` matches the object's `user`
attribute. -/
theorem test_func_attribute_comparison_witness :
    (test_func
        { request_user := 5
          object_attr := some ⟨fun _ => 5⟩
          has_get_object := false
          get_object_result := ⟨fun _ => 0⟩
          queryset_first := none } = Except.ok true ↔
      (5 : Nat) = (PyObj.mk (fun _ => 5)).attrs
        (get_model_permission_user_field
          { request_user := 5
            object_attr := some ⟨fun _ => 5⟩
            has_get_object := false
            get_object_result := ⟨fun _ => 0⟩
            queryset_first := none })) ∧
    ModelUserFieldPermissionMixin.model_permission_user_field = "user" :=
  test_func_attribute_comparison _ _ rfl

/-- Claim C8: with no truthy `object` attribute and no `get_object` method,
`test_func` raises `NameError`: the fallback evaluates
`self.get_queryset().first()` without binding `object`, and the final
attribute comparison reads the unassigned local. -/
theorem test_func_unbound_local (v : PermView)
    (hobj : v.object_attr = none) (hget : v.has_get_object = false) :
    test_func v = Except.error PyExc.nameError := by
  simp [test_func, hobj, hget]

/-- Witness for C8: a concrete view with neither `object` nor `get_object`. -/
theorem test_func_unbound_local_witness :
    test_func
        { request_user := 1
          object_attr := none
          has_get_object := false
          get_object_result := ⟨fun _ => 0⟩
          queryset_first := some ⟨fun _ => 1⟩ } = Except.error PyExc.nameError :=
  test_func_unbound_local _ rfl rfl

/-! ### The `action` decorator (`django_extensions/views/mixins.py`)

A Python function object is modelled as an identity (`fn_id`, standing for
the underlying code object, which the decorator never changes) together with
the three attributes the decorator may attach; `none` means the attribute is
not set on the function. -/

structure PyFunc where
  fn_id : Nat
  allowed_permissions : Option (List String) := none
  short_description : Option String := none
  allow_select_across : Option Bool := none
deriving DecidableEq, Repr

/-- The inner `decorator(func)` closure of `action`. -/
def action.decorator (permissions : Option (List String)) (description : Option String)
    (allow_select_across : Bool) (func : PyFunc) : PyFunc :=
  let func := match permissions with
    | some p => { func with allowed_permissions := some p }
    | none => func
  let func := match description with
    | some d => { func with short_description := some d }
    | none => func
  { func with allow_select_across := some allow_select_across }

/-- `action(function=None, *, permissions=None, description=None,
allow_select_across=False)`: bare use returns `decorator(function)`,
keyword-only use returns the decorator itself. -/
def action (function : Option PyFunc) (permissions : Option (List String))
    (description : Option String) (allow_select_across : Bool) :
    (PyFunc → PyFunc) ⊕ PyFunc :=
  match function with
  | none => Sum.inl (action.decorator permissions description allow_select_across)
  | some f => Sum.inr (action.decorator permissions description allow_select_across f)

/-- Claim C6: `action` returns the very function it was given (bare or with
keyword arguments), changed only by attaching metadata: `allow_select_across`
is always set to the given flag, `allowed_permissions` is assigned exactly
when `permissions` is not `None`, and `short_description` exactly when
`description` is not `None`. -/
theorem action_metadata (f : PyFunc) (p : Option (List String)) (d : Option String)
    (asa : Bool) :
    (action.decorator p d asa f).fn_id = f.fn_id ∧
    (action.decorator p d asa f).allow_select_across = some asa ∧
    (action.decorator p d asa f).allowed_permissions =
      (match p with | some q => some q | none => f.allowed_permissions) ∧
    (action.decorator p d asa f).short_description =
      (match d with | some e => some e | none => f.short_description) ∧
    action (some f) p d asa = Sum.inr (action.decorator p d asa f) ∧
    action none p d asa = Sum.inl (action.decorator p d asa) := by
  refine ⟨?_, ?_, ?_, ?_, rfl, rfl⟩ <;>
    cases p <;> cases d <;> rfl

/-! ### `SelectActionMixin.response_action` (`django_extensions/views/mixins.py`)

The method is embedded over the data it actually branches on.  The ORM
queryset is modelled as the list of its primary keys (strings, as submitted
in POST data); `queryset.filter(pk__in=selected)` keeps the keys that occur
in the selection.  What the chosen action function does when called is an
input (`FuncRet`): it may return an `HttpResponse`-like object, return
anything else (Python `None` included), or raise `ActionException` — which
the method catches, records as an error, and, because `response` was never
bound, follows with the `handle_action_finished` redirect.

The result records the returned value (`none` models Python `None`), the
queryset the action function was invoked on (`none` = never invoked), and
the user messages recorded. -/

inductive Msg where
  | warning (text : String)
  | error (text : String)
deriving DecidableEq, Repr

inductive FuncRet where
  | httpResponse
  | nonResponse
  | actionException (text : String)
deriving DecidableEq, Repr

inductive RAResponse where
  | funcResponse
  | redirect
deriving DecidableEq, Repr

structure RAResult where
  response : Option RAResponse
  invokedOn : Option (List String)
  msgs : List Msg
deriving DecidableEq, Repr

def noItemsMsg : String :=
  "Items must be selected in order to perform actions on them. No items have been changed."

def maxItemsMsg : String := "Only a maximum of %(num)i items can be selected at a time."

def discreteMsg : String :=
  "This action requires a discrete selection of items, not all of them."

def noActionMsg : String := "No action selected."

/-- Call `func(self, request, queryset)` and turn its outcome into the tail
of `response_action`. -/
def invokeAction (qs : List String) (funcRet : FuncRet) : RAResult :=
  match funcRet with
  | FuncRet.httpResponse => ⟨some RAResponse.funcResponse, some qs, []⟩
  | FuncRet.nonResponse => ⟨some RAResponse.redirect, some qs, []⟩
  | FuncRet.actionException t => ⟨some RAResponse.redirect, some qs, [Msg.error t]⟩

def response_action (formValid : Bool) (select_across : Bool) (selected : List String)
    (action_selection_max : Option Int) (allow_select_across : Bool)
    (funcRet : FuncRet) (queryset : List String) : RAResult :=
  if formValid then
    if selected.isEmpty && !select_across then
      ⟨none, none, [Msg.warning noItemsMsg]⟩
    else if !select_across &&
        (match action_selection_max with
          | some m => decide ((selected.length : Int) > m)
          | none => false) then
      ⟨none, none, [Msg.error maxItemsMsg]⟩
    else if !select_across then
      invokeAction (queryset.filter (fun pk => selected.contains pk)) funcRet
    else if !allow_select_across then
      ⟨none, none, [Msg.error discreteMsg]⟩
    else
      invokeAction queryset funcRet
  else
    ⟨none, none, [Msg.warning noActionMsg]⟩


/-- Claim C2: with a valid form, `select_across` false and a configured
nonnegative `action_selection_max`, a selection strictly larger than the cap
makes `response_action` record an error and return `None` without invoking
the action function, while a nonempty selection within the cap reaches the
invocation on the selected subset. -/
theorem response_action_selection_cap (selected : List String) (m : Int)
    (allow_select_across : Bool) (funcRet : FuncRet) (queryset : List String)
    (hm : (0 : Int) ≤ m) :
    ((selected.length : Int) > m →
      response_action true false selected (some m) allow_select_across funcRet queryset =
        ⟨none, none, [Msg.error maxItemsMsg]⟩) ∧
    (selected ≠ [] → (selected.length : Int) ≤ m →
      (response_action true false selected (some m) allow_select_across funcRet
          queryset).invokedOn =
        some (queryset.filter (fun pk => selected.contains pk))) := by
  constructor
  · intro hgt
    have hne : selected ≠ [] := by
      intro h
      subst h
      simp only [List.length_nil, Nat.cast_zero] at hgt
      omega
    have h0 : selected.isEmpty = false := by
      cases selected with
      | nil => exact absurd rfl hne
      | cons a l => rfl
    have h1 : decide ((selected.length : Int) > m) = true := decide_eq_true hgt
    simp [response_action, h0, h1]
  · intro hne hle
    have h0 : selected.isEmpty = false := by
      cases selected with
      | nil => exact absurd rfl hne
      | cons a l => rfl
    have h1 : decide ((selected.length : Int) > m) = false := decide_eq_false (by omega)
    cases funcRet <;> simp [response_action, h0, h1, invokeAction]

/-- Witness for C2: three selected keys against a cap of `2` are rejected
with an error and no invocation. -/
theorem response_action_selection_cap_witness :
    response_action true false ["1", "2", "3"] (some 2) false FuncRet.nonResponse
        ["1", "2", "3", "4"] = ⟨none, none, [Msg.error maxItemsMsg]⟩ :=
  (response_action_selection_cap ["1", "2", "3"] 2 false FuncRet.nonResponse
    ["1", "2", "3", "4"] (by decide)).1 (by decide)

/-- Claim C10: with a valid form and `select_across` true, the action runs on
the unfiltered queryset exactly when `can_select_across` (the function's
`allow_select_across` attribute) holds, and otherwise an error is recorded
and `None` returned without invocation; with `select_across` false and a
selection passing the count checks, the action runs on the queryset filtered
to the selected keys. -/
theorem response_action_select_across_gating (selected : List String)
    (action_selection_max : Option Int) (allow_select_across : Bool)
    (funcRet : FuncRet) (queryset : List String) :
    ((allow_select_across = true →
      (response_action true true selected action_selection_max allow_select_across
          funcRet queryset).invokedOn = some queryset) ∧
    (allow_select_across = false →
      response_action true true selected action_selection_max allow_select_across
          funcRet queryset = ⟨none, none, [Msg.error discreteMsg]⟩)) ∧
    (selected ≠ [] →
      (match action_selection_max with
        | some m => (selected.length : Int) ≤ m
        | none => True) →
      (response_action true false selected action_selection_max allow_select_across
          funcRet queryset).invokedOn =
        some (queryset.filter (fun pk => selected.contains pk))) := by
  refine ⟨⟨?_, ?_⟩, ?_⟩
  · intro hasa
    subst hasa
    cases funcRet <;> simp [response_action, invokeAction]
  · intro hasa
    subst hasa
    simp [response_action]
  · intro hne hcap
    have h0 : selected.isEmpty = false := by
      cases selected with
      | nil => exact absurd rfl hne
      | cons a l => rfl
    cases action_selection_max with
    | none =>
      cases funcRet <;> simp [response_action, h0, invokeAction]
    | some m =>
      have hcap' : (selected.length : Int) ≤ m := hcap
      have h1 : decide ((selected.length : Int) > m) = false :=
        decide_eq_false (by omega)
      cases funcRet <;> simp [response_action, h0, h1, invokeAction]

/-- Witness for C10: a select-across request with a non-select-across action
is rejected with an error and no invocation. -/
theorem response_action_select_across_gating_witness :
    response_action true true [] (some 5) false FuncRet.nonResponse ["a", "b"] =
      ⟨none, none, [Msg.error discreteMsg]⟩ :=
  ((response_action_select_across_gating [] (some 5) false FuncRet.nonResponse
    ["a", "b"]).1).2 rfl

/-! ### Query strings (`django_extensions/templatetags/url_tools.py`)

`build_query_string` copies `request.GET` — a Django `QueryDict`, i.e. an
insertion-ordered mapping from keys to nonempty lists of submitted values —
applies the keyword parameters to it, and feeds `sorted(p.items())` to
`django.utils.http.urlencode`.

A `QueryDict` is modelled as an insertion-ordered association list from keys
to value lists (`QDict`); real query dicts never hold an empty value list,
and `items()` yields each key with its last value.  `p[k] = v` replaces the
value list in place (Python dicts keep the key's insertion position) or
appends a fresh key; `del p[k]` removes the key.  The single-valued view
produced by `items()` is `SDict` with the mirrored operations. -/

abbrev QDict := List (String × List String)

abbrev SDict := List (String × String)

def QDict.setitem (k v : String) : QDict → QDict
  | [] => [(k, [v])]
  | kv :: rest => if kv.1 = k then (k, [v]) :: rest else kv :: QDict.setitem k v rest

def QDict.delitem (k : String) : QDict → QDict
  | [] => []
  | kv :: rest => if kv.1 = k then rest else kv :: QDict.delitem k rest

def QDict.hasKey (k : String) (d : QDict) : Bool := d.any (fun kv => kv.1 = k)

/-- `MultiValueDict.items()`: each key with the last value of its list. -/
def QDict.items (d : QDict) : SDict := d.map (fun kv => (kv.1, kv.2.getLastD ""))

def SDict.set (k v : String) : SDict → SDict
  | [] => [(k, v)]
  | kv :: rest => if kv.1 = k then (k, v) :: rest else kv :: SDict.set k v rest

def SDict.del (k : String) : SDict → SDict
  | [] => []
  | kv :: rest => if kv.1 = k then rest else kv :: SDict.del k rest

/-! `django.utils.http.urlencode` on a list of string pairs delegates to
`urllib.parse.urlencode`, which quotes each key and value with `quote_plus`:
bytes of the UTF-8 encoding that are ASCII alphanumerics or `_.-~` stay
literal, a space becomes `+`, every other byte becomes `%XX` with uppercase
hex; pairs are joined as `k=v` with `&`. -/

def utf8Bytes (c : Char) : List Nat :=
  let n := c.toNat
  if n < 0x80 then [n]
  else if n < 0x800 then
    [0xC0 ||| (n >>> 6), 0x80 ||| (n &&& 0x3F)]
  else if n < 0x10000 then
    [0xE0 ||| (n >>> 12), 0x80 ||| ((n >>> 6) &&& 0x3F), 0x80 ||| (n &&& 0x3F)]
  else
    [0xF0 ||| (n >>> 18), 0x80 ||| ((n >>> 12) &&& 0x3F),
      0x80 ||| ((n >>> 6) &&& 0x3F), 0x80 ||| (n &&& 0x3F)]

def hexDigitChar (n : Nat) : Char :=
  if n < 10 then Char.ofNat (48 + n) else Char.ofNat (55 + n)

def isAlwaysSafeByte (b : Nat) : Bool :=
  (65 ≤ b && b ≤ 90) || (97 ≤ b && b ≤ 122) || (48 ≤ b && b ≤ 57) ||
    b = 95 || b = 46 || b = 45 || b = 126

def quoteByte (b : Nat) : String :=
  if isAlwaysSafeByte b then String.singleton (Char.ofNat b)
  else String.mk ['%', hexDigitChar (b / 16), hexDigitChar (b % 16)]

def quote_plus (s : String) : String :=
  String.join ((s.data.map utf8Bytes).flatten.map
    (fun b => if b = 32 then "+" else quoteByte b))

def urlencode (pairs : List (String × String)) : String :=
  String.intercalate "&" (pairs.map (fun kv => quote_plus kv.1 ++ "=" ++ quote_plus kv.2))

/-- Python `≤` on pairs of strings (as `sorted` compares tuples). -/
def pairLE (a b : String × String) : Bool :=
  if a.1 = b.1 then decide (a.2 < b.2) || decide (a.2 = b.2) else decide (a.1 < b.1)

/-- `build_query_string(request, **params)` with a truthy request: the falsy
branch yields an empty plain dict and coincides with `GET = []`. -/
def build_query_string (GET : QDict) (params : List (String × Option String)) : String :=
  let p := params.foldl (fun p kv =>
    match kv.2 with
    | none => if QDict.hasKey kv.1 p then QDict.delitem kv.1 p else p
    | some v => QDict.setitem kv.1 v p) GET
  urlencode (stableSort pairLE (QDict.items p))

/-- The claim's wording, over the single-valued parameter view: copy the GET
parameters, then for each keyword parameter in turn delete the key when the
value is `None` (a no-op when absent) and otherwise set it; URL-encode the
resulting pairs in sorted order. -/
def build_query_string_spec (pairs : SDict) (params : List (String × Option String)) :
    String :=
  let p := params.foldl (fun p kv =>
    match kv.2 with
    | none => SDict.del kv.1 p
    | some v => SDict.set kv.1 v p) pairs
  urlencode (stableSort pairLE p)

theorem items_setitem (k v : String) (d : QDict) :
    QDict.items (QDict.setitem k v d) = SDict.set k v (QDict.items d) := by
  induction d with
  | nil => rfl
  | cons kv rest ih =>
    by_cases h : kv.1 = k
    · simp [QDict.setitem, QDict.items, SDict.set, h]
    · simp [QDict.setitem, QDict.items, SDict.set, h]
      simpa [QDict.items] using ih

theorem items_delitem (k : String) (d : QDict) :
    QDict.items (QDict.delitem k d) = SDict.del k (QDict.items d) := by
  induction d with
  | nil => rfl
  | cons kv rest ih =>
    by_cases h : kv.1 = k
    · simp [QDict.delitem, QDict.items, SDict.del, h]
    · simp [QDict.delitem, QDict.items, SDict.del, h]
      simpa [QDict.items] using ih

theorem delitem_of_not_hasKey (k : String) (d : QDict)
    (h : QDict.hasKey k d = false) : QDict.delitem k d = d := by
  induction d with
  | nil => rfl
  | cons kv rest ih =>
    simp only [QDict.hasKey, List.any_cons, Bool.or_eq_false_iff,
      decide_eq_false_iff_not] at h
    simp [QDict.delitem, h.1, ih (by simpa [QDict.hasKey] using h.2)]

/-- Claim C4: `build_query_string` returns exactly the spec's description —
the URL-encoding, in sorted order, of the GET parameter pairs after deleting
each `None`-valued keyword key (a no-op when absent) and setting every other
keyword key to its value. -/
theorem build_query_string_correct (GET : QDict) (params : List (String × Option String)) :
    build_query_string GET params = build_query_string_spec (QDict.items GET) params := by
  suffices h : ∀ (ps : List (String × Option String)) (d : QDict),
      QDict.items (ps.foldl (fun p kv =>
        match kv.2 with
        | none => if QDict.hasKey kv.1 p then QDict.delitem kv.1 p else p
        | some v => QDict.setitem kv.1 v p) d) =
      ps.foldl (fun p kv =>
        match kv.2 with
        | none => SDict.del kv.1 p
        | some v => SDict.set kv.1 v p) (QDict.items d) by
    simp only [build_query_string, build_query_string_spec, h params GET]
  intro ps
  induction ps with
  | nil => intro d; rfl
  | cons kv rest ih =>
    intro d
    rcases kv with ⟨k, v?⟩
    cases v? with
    | some v =>
      simpa [items_setitem] using ih (QDict.setitem k v d)
    | none =>
      cases hk : QDict.hasKey k d with
      | true =>
        simpa [hk, items_delitem] using ih (QDict.delitem k d)
      | false =>
        have hdel : QDict.delitem k d = d := delitem_of_not_hasKey k d hk
        have : SDict.del k (QDict.items d) = QDict.items d := by
          rw [← items_delitem, hdel]
        simpa [hk, this] using ih d

/-! ### `MultipleLookupMixin.get_object` (`django_extensions/views/mixins.py`)

The view state is passed explicitly: the configured `lookup_fields` and
`lookup_url_kwarg` (falsy when `None` or empty), the URL `kwargs` mapping,
and the queryset's `get` behaviour — for each field name and looked-up value
either an object (modelled by a `Nat` identifier) or a raised exception.
The method catches `ValueError`, `ValidationError` and the model's
`DoesNotExist`; any other exception propagates.  Falling off the `for` loop
would return Python `None`, modelled by `Except.ok none`; the guards make
that unreachable. -/

inductive QGet where
  | found (obj : Nat)
  | raises (e : PyExc)
deriving DecidableEq, Repr

/-- Is the raised exception one of the three the `except` clause catches? -/
def caughtByLookup (e : PyExc) : Bool :=
  match e with
  | PyExc.valueError => true
  | PyExc.validationError => true
  | PyExc.doesNotExist => true
  | _ => false

def lookupLoop (qsGet : String → Option String → QGet) (value : Option String) :
    List String → Except PyExc (Option Nat)
  | [] => Except.ok none
  | field :: rest =>
    match qsGet field value with
    | QGet.found obj => Except.ok (some obj)
    | QGet.raises e =>
      if caughtByLookup e then
        -- `i == len(self.lookup_fields) - 1` holds exactly when no field remains
        if rest.isEmpty then Except.error PyExc.http404 else lookupLoop qsGet value rest
      else Except.error e

def get_object (lookup_fields : List String) (lookup_url_kwarg : Option String)
    (kwargs : String → Option String) (qsGet : String → Option String → QGet) :
    Except PyExc (Option Nat) :=
  if lookup_fields.length = 0 then Except.error PyExc.attributeError
  else
    match lookup_url_kwarg with
    | none => Except.error PyExc.attributeError
    | some kw =>
      if kw = "" then Except.error PyExc.attributeError
      else lookupLoop qsGet (kwargs kw) lookup_fields

/-- Claim C5: `get_object` tries `queryset.get(field=value)` for each
`lookup_fields` entry in order and returns the first success; if every
attempt (the last included) fails with `ValueError`, `ValidationError` or
`DoesNotExist` it raises `Http404`; it raises `AttributeError` when
`lookup_fields` is empty or `lookup_url_kwarg` is unset. -/
theorem get_object_multi_lookup (kwargs : String → Option String)
    (qsGet : String → Option String → QGet) :
    (∀ (pre post : List String) (field kw : String) (obj : Nat),
      kw ≠ "" →
      (∀ g ∈ pre, ∃ e, qsGet g (kwargs kw) = QGet.raises e ∧ caughtByLookup e = true) →
      qsGet field (kwargs kw) = QGet.found obj →
      get_object (pre ++ field :: post) (some kw) kwargs qsGet = Except.ok (some obj)) ∧
    (∀ (lookup_fields : List String) (kw : String),
      lookup_fields ≠ [] → kw ≠ "" →
      (∀ g ∈ lookup_fields, ∃ e, qsGet g (kwargs kw) = QGet.raises e ∧
        caughtByLookup e = true) →
      get_object lookup_fields (some kw) kwargs qsGet = Except.error PyExc.http404) ∧
    (∀ lookup_url_kwarg,
      get_object [] lookup_url_kwarg kwargs qsGet = Except.error PyExc.attributeError) ∧
    (∀ (lookup_fields : List String),
      get_object lookup_fields none kwargs qsGet = Except.error PyExc.attributeError ∧
      get_object lookup_fields (some "") kwargs qsGet = Except.error PyExc.attributeError) := by
  have hloop_found : ∀ (pre : List String) (post : List String) (field : String)
      (value : Option String) (obj : Nat),
      (∀ g ∈ pre, ∃ e, qsGet g value = QGet.raises e ∧ caughtByLookup e = true) →
      qsGet field value = QGet.found obj →
      lookupLoop qsGet value (pre ++ field :: post) = Except.ok (some obj) := by
    intro pre
    induction pre with
    | nil =>
      intro post field value obj _ hf
      simp [lookupLoop, hf]
    | cons g pre ih =>
      intro post field value obj hpre hf
      rcases hpre g (by simp) with ⟨e, he, hc⟩
      have hrest : ((pre ++ field :: post).isEmpty) = false := by
        cases pre <;> rfl
      simp [lookupLoop, he, hc, hrest]
      exact ih post field value obj (fun x hx => hpre x (by simp [hx])) hf
  have hloop_all : ∀ (lookup_fields : List String) (value : Option String),
      lookup_fields ≠ [] →
      (∀ g ∈ lookup_fields, ∃ e, qsGet g value = QGet.raises e ∧
        caughtByLookup e = true) →
      lookupLoop qsGet value lookup_fields = Except.error PyExc.http404 := by
    intro lookup_fields
    induction lookup_fields with
    | nil => intro value h; exact absurd rfl h
    | cons g rest ih =>
      intro value _ hall
      rcases hall g (by simp) with ⟨e, he, hc⟩
      cases hrest : rest.isEmpty with
      | true => simp [lookupLoop, he, hc, hrest]
      | false =>
        have hne : rest ≠ [] := by
          cases rest with
          | nil => simp at hrest
          | cons a l => simp
        simp [lookupLoop, he, hc, hrest]
        exact ih value hne (fun x hx => hall x (by simp [hx]))
  refine ⟨?_, ?_, ?_, ?_⟩
  · intro pre post field kw obj hkw hpre hf
    have hlen : (pre ++ field :: post).length ≠ 0 := by simp
    simp only [get_object, if_neg hlen, if_neg hkw]
    exact hloop_found pre post field (kwargs kw) obj hpre hf
  · intro lookup_fields kw hne hkw hall
    have hlen : lookup_fields.length ≠ 0 := by
      cases lookup_fields with
      | nil => exact absurd rfl hne
      | cons a l => simp
    simp only [get_object, if_neg hlen, if_neg hkw]
    exact hloop_all lookup_fields (kwargs kw) hne hall
  · intro lookup_url_kwarg
    rfl
  · intro lookup_fields
    constructor
    · cases lookup_fields <;> rfl
    · cases lookup_fields with
      | nil => rfl
      | cons a l => simp [get_object]

/-- Witness for C5: with `slug` failing with `ValueError` and `pk`
succeeding, the second field's object is returned. -/
theorem get_object_multi_lookup_witness :
    get_object ["slug", "pk"] (some "ident") (fun _ => some "7")
        (fun field _ => if field = "pk" then QGet.found 7 else QGet.raises PyExc.valueError) =
      Except.ok (some 7) :=
  (get_object_multi_lookup (fun _ => some "7")
      (fun field _ => if field = "pk" then QGet.found 7
        else QGet.raises PyExc.valueError)).1
    ["slug"] [] "pk" "ident" 7 (by decide)
    (by
      intro g hg
      exact ⟨PyExc.valueError, by simp at hg; simp [hg], rfl⟩)
    (by simp)

/-! ### Framework methods re-exposed by the mixins

`SelectActionMixin`, `ListFilterMixin` and `AdjustablePaginationMixin` close
with the class-level assignments
`get_query_string = ChangeList.get_query_string` and (for the first)
`_filter_actions_by_permissions = ModelAdmin._filter_actions_by_permissions`,
so the mixin attribute is the very framework function object.

The framework bodies are not part of this repository; they are modelled here
from the Django sources the code binds.  `ChangeList.get_query_string`
operates on the instance's `self.params` — which the mixins' `setup` fills
with `dict(request.GET.items())`, a plain single-valued dict (`SDict`) — and
takes optional `new_params` / `remove` arguments; it drops every key starting
with a removed prefix, then merges `new_params` (deleting `None`-valued
present keys), and returns `'?'` plus the sorted URL-encoded pairs.
`ModelAdmin._filter_actions_by_permissions` keeps an action triple when its
function has no `allowed_permissions` attribute or when the instance grants
at least one of the named permissions for the request (`hasPermission`
models `self.has_<perm>_permission(request)`). -/

def SDict.hasKey (k : String) (d : SDict) : Bool := d.any (fun kv => kv.1 = k)

def ChangeList.get_query_string (params : SDict)
    (new_params : Option (List (String × Option String)))
    (remove : Option (List String)) : String :=
  let new_params := new_params.getD []
  let remove := remove.getD []
  let p := remove.foldl (fun p r => p.filter (fun kv => !(kv.1.startsWith r))) params
  let p := new_params.foldl (fun p kv =>
    match kv.2 with
    | none => if SDict.hasKey kv.1 p then SDict.del kv.1 p else p
    | some v => SDict.set kv.1 v p) p
  "?" ++ urlencode (stableSort pairLE p)

def ModelAdmin._filter_actions_by_permissions (hasPermission : String → Bool)
    (actions : List (PyFunc × String × String)) : List (PyFunc × String × String) :=
  actions.filter (fun a =>
    match a.1.allowed_permissions with
    | none => true
    | some perms => perms.any hasPermission)

def SelectActionMixin.get_query_string : SDict →
    Option (List (String × Option String)) → Option (List String) → String :=
  ChangeList.get_query_string

def SelectActionMixin._filter_actions_by_permissions : (String → Bool) →
    List (PyFunc × String × String) → List (PyFunc × String × String) :=
  ModelAdmin._filter_actions_by_permissions

def ListFilterMixin.get_query_string : SDict →
    Option (List (String × Option String)) → Option (List String) → String :=
  ChangeList.get_query_string

def AdjustablePaginationMixin.get_query_string : SDict →
    Option (List (String × Option String)) → Option (List String) → String :=
  ChangeList.get_query_string

/-- Claim C7: the mixins' `get_query_string` (on `SelectActionMixin`,
`ListFilterMixin` and `AdjustablePaginationMixin`) and
`SelectActionMixin._filter_actions_by_permissions` are the framework's
`ChangeList.get_query_string` and `ModelAdmin._filter_actions_by_permissions`
bound unchanged: on identical instance state and arguments the mixin call and
the framework call agree. -/
theorem mixin_framework_rebinding :
    (∀ (params : SDict) (new_params : Option (List (String × Option String)))
        (remove : Option (List String)),
      SelectActionMixin.get_query_string params new_params remove =
        ChangeList.get_query_string params new_params remove ∧
      ListFilterMixin.get_query_string params new_params remove =
        ChangeList.get_query_string params new_params remove ∧
      AdjustablePaginationMixin.get_query_string params new_params remove =
        ChangeList.get_query_string params new_params remove) ∧
    (∀ (hasPermission : String → Bool) (actions : List (PyFunc × String × String)),
      SelectActionMixin._filter_actions_by_permissions hasPermission actions =
        ModelAdmin._filter_actions_by_permissions hasPermission actions) :=
  ⟨fun _ _ _ => ⟨rfl, rfl, rfl⟩, fun _ _ => rfl⟩
